import Mathlib

/-!
Shallow embedding of `es_conn.go` (devstats ElasticSearch write path).

The Go file drives a delete-then-insert bulk protocol over documents built
from time-series points.  Documents are Go `map[string]interface{}` values;
we embed them as association lists where the most recent assignment is the
first entry with a given key (`docSet` prepends, `docGet` returns the first
match), which reproduces Go map overwrite/lookup semantics.  Values carried
by documents are embedded as `EVal`; dynamically typed input values
(`interface{}`) as `GoVal`.  External effects (ElasticSearch round-trips)
are embedded by passing the response data as explicit arguments.
-/

/-- Dynamically typed value (Go `interface{}`) as consumed from a point's
`fields` map: a native string, a numeric value, or something that is
neither a string nor numerically coercible. -/
inductive GoVal where
  | vstr (s : String)
  | vnum (x : Int)
  | vother
  deriving DecidableEq, Repr

/-- `ESDataObject` from `es_conn.go`: `{name, ivalue, svalue}` triplet used
in the `data` array representation.  Go zero values: `0` and `""`. -/
structure ESDataObject where
  name : String
  ivalue : Int
  svalue : String
  deriving DecidableEq, Repr

/-- A value stored in an emitted document: a string, a number, a formatted
date, an embedded `data` array, or a raw dynamically-typed value stored
verbatim (Go `obj[k] = fieldValue` on an `interface{}`). -/
inductive EVal where
  | str (s : String)
  | num (x : Int)
  | date (t : Nat)
  | data (d : List ESDataObject)
  | raw (v : GoVal)
  deriving DecidableEq, Repr

/-- A document: Go `map[string]interface{}`, embedded as an association
list where the first entry with a given key is the current binding. -/
abbrev Doc := List (String × EVal)

/-- Go map assignment `obj[k] = v`: the new binding shadows any older one. -/
def docSet (d : Doc) (k : String) (v : EVal) : Doc := (k, v) :: d

/-- Go map lookup: first (most recent) binding for `k`. -/
def docGet (d : Doc) (k : String) : Option EVal :=
  match d.find? (fun q => q.1 == k) with
  | some q => some q.2
  | none => none

/-- A time-series point (`TSPoint`, consumed read-only): series name,
optional tags (`nil` map embedded as `none`), optional dynamically typed
fields, logical time `t`, ingestion time `added`, aggregation `period`. -/
structure TSPoint where
  name : String
  tags : Option (List (String × String))
  fields : Option (List (String × GoVal))
  t : Nat
  added : Nat
  period : String
  deriving DecidableEq, Repr

/-- Modelled from the spec: `ToESDate` (defined outside `es_conn.go`)
formats a timestamp for the document store; embedded as an abstract
injective date value. -/
def ToESDate (t : Nat) : EVal := .date t

/-- `ESIndexName`: destination index `"d_" + project`. -/
def ESIndexName (project : String) : String := "d_" ++ project

/-- `ESEscapeFieldName`: `strings.Replace(fieldName, ".", "", -1)` —
strip every `.` from a field name before using it as a document key. -/
def ESEscapeFieldName (fieldName : String) : String :=
  ⟨fieldName.toList.filter (fun c => !(c == '.'))⟩

/-- Modelled from the spec: `GetFloatFromInterface` (defined outside
`es_conn.go`) attempts numeric coercion of a dynamically typed value;
it succeeds exactly on native numeric values. -/
def GetFloatFromInterface (v : GoVal) : Option Int :=
  match v with
  | .vnum x => some x
  | _ => none

/-- `needle` occurs as a prefix of `hay` (character lists). -/
def charsHavePre (needle hay : List Char) : Bool :=
  match needle, hay with
  | [], _ => true
  | _ :: _, [] => false
  | n :: ns, h :: hs => n == h && charsHavePre ns hs

/-- `needle` occurs as a contiguous sublist of `hay`. -/
def charsHaveSub (needle : List Char) : List Char → Bool
  | [] => charsHavePre needle []
  | c :: hs => charsHavePre needle (c :: hs) || charsHaveSub needle hs

/-- Go `strings.Contains(hay, needle)`. -/
def strContains (hay needle : String) : Bool :=
  charsHaveSub needle.toList hay.toList

/-- Modelled from the spec: `HashObject` (defined outside `es_conn.go`)
computes a stable content identity from exactly the named key fields in
order; the collision-resistant hash is idealized as the ordered list of
key-field values itself. -/
def HashObject (doc : Doc) (keys : List String) : List (Option EVal) :=
  keys.map (docGet doc)

/-- A delete-by-identity request queued in the delete bulk. -/
structure DelReq where
  index : String
  id : List (Option EVal)
  deriving DecidableEq, Repr

/-- An insert/overwrite-by-identity request (full document body) queued in
the insert bulk. -/
structure AddReq where
  index : String
  id : List (Option EVal)
  doc : Doc
  deriving DecidableEq, Repr

/-- `AddBulksItems`: hash the document over its key fields, append one
delete request and one insert request with that identity, both targeting
the destination index. -/
def AddBulksItems (project : String) (bulkDel : List DelReq) (bulkAdd : List AddReq)
    (doc : Doc) (keys : List String) : List DelReq × List AddReq :=
  let docHash := HashObject doc keys
  (bulkDel ++ [⟨ESIndexName project, docHash⟩],
   bulkAdd ++ [⟨ESIndexName project, docHash, doc⟩])

/-- Output flags `outputs [3]bool`: `o0` = wide (variable column names),
`o1` = `data[]` array, `o2` = flat (N separate docs). -/
structure Outputs where
  o0 : Bool
  o1 : Bool
  o2 : Bool
  deriving DecidableEq, Repr

/-- The tag loop of the wide/array tag document: for each tag, wide mode
assigns the escaped tag name, array mode appends a `{name, svalue}`
triplet to `data`. -/
def tagsLoop (o0 o1 : Bool) : List (String × String) → Doc × List ESDataObject →
    Doc × List ESDataObject
  | [], acc => acc
  | tv :: rest, acc =>
      tagsLoop o0 o1 rest
        ((if o0 then docSet acc.1 (ESEscapeFieldName tv.1) (.str tv.2) else acc.1),
         (if o1 then acc.2 ++ [⟨tv.1, 0, tv.2⟩] else acc.2))

/-- Base object of the wide/array tag document: `type = "t"+name`,
`time = added`, `tag_time = t`. -/
def tagsWABase (p : TSPoint) : Doc :=
  docSet (docSet (docSet [] "type" (.str ("t" ++ p.name))) "time" (ToESDate p.added))
    "tag_time" (ToESDate p.t)

/-- The combined wide/array tag document for one point. -/
def tagsWideArrayDoc (o0 o1 : Bool) (p : TSPoint) (ts : List (String × String)) : Doc :=
  let r := tagsLoop o0 o1 ts (tagsWABase p, [])
  if o1 then docSet r.1 "data" (.data r.2) else r.1

/-- One flat tag document: `type = "it"+name`, `time = added`,
`tag_time = t`, `name`, `svalue`. -/
def tagFlatDoc (p : TSPoint) (tv : String × String) : Doc :=
  docSet (docSet (docSet (docSet (docSet [] "type" (.str ("it" ++ p.name)))
    "time" (ToESDate p.added)) "tag_time" (ToESDate p.t)) "name" (.str tv.1))
    "svalue" (.str tv.2)

/-- The field loop of a wide/array field document: wide mode stores the
raw dynamically typed value under the escaped field name; array mode
coerces (string as `svalue`, otherwise numeric, else fatal). -/
def fieldsLoop (o0 o1 : Bool) : List (String × GoVal) → Doc × List ESDataObject →
    Except String (Doc × List ESDataObject)
  | [], acc => .ok acc
  | fv :: rest, acc =>
      let obj := if o0 then docSet acc.1 (ESEscapeFieldName fv.1) (.raw fv.2) else acc.1
      if o1 then
        match fv.2 with
        | .vstr s => fieldsLoop o0 o1 rest (obj, acc.2 ++ [⟨fv.1, 0, s⟩])
        | v =>
            match GetFloatFromInterface v with
            | some x => fieldsLoop o0 o1 rest (obj, acc.2 ++ [⟨fv.1, x, ""⟩])
            | none => .error "cannot convert to a number"
      else fieldsLoop o0 o1 rest (obj, acc.2)

/-- Pure form of the field loop when array mode is off: only the wide
assignments happen and no failure is possible. -/
def fieldsLoopPlain (o0 : Bool) : List (String × GoVal) → Doc → Doc
  | [], d => d
  | fv :: rest, d =>
      fieldsLoopPlain o0 rest
        (if o0 then docSet d (ESEscapeFieldName fv.1) (.raw fv.2) else d)

/-- Base object of the unmerged wide/array field document:
`type = "s"+name`, `time = t`, `period`, `time_added = added`. -/
def fieldsWABase (p : TSPoint) : Doc :=
  docSet (docSet (docSet (docSet [] "type" (.str ("s" ++ p.name)))
    "time" (ToESDate p.t)) "period" (.str p.period)) "time_added" (ToESDate p.added)

/-- The unmerged wide/array field document for one point. -/
def fieldsWideArrayDoc (o0 o1 : Bool) (p : TSPoint) (fs : List (String × GoVal)) :
    Except String Doc :=
  match fieldsLoop o0 o1 fs (fieldsWABase p, []) with
  | .error m => .error m
  | .ok r => .ok (if o1 then docSet r.1 "data" (.data r.2) else r.1)

/-- Base object of the merged wide/array field document: `type = mergeS`,
`time = t`, `period`, `series = name`, `time_added = added`. -/
def mergedWABase (mergeS : String) (p : TSPoint) : Doc :=
  docSet (docSet (docSet (docSet (docSet [] "type" (.str mergeS))
    "time" (ToESDate p.t)) "period" (.str p.period)) "series" (.str p.name))
    "time_added" (ToESDate p.added)

/-- The merged wide/array field document for one point. -/
def mergedWideArrayDoc (mergeS : String) (o0 o1 : Bool) (p : TSPoint)
    (fs : List (String × GoVal)) : Except String Doc :=
  match fieldsLoop o0 o1 fs (mergedWABase mergeS p, []) with
  | .error m => .error m
  | .ok r => .ok (if o1 then docSet r.1 "data" (.data r.2) else r.1)

/-- Store a field value on a flat document: a native string goes to
`svalue`, otherwise numeric coercion goes to `ivalue`, otherwise fatal. -/
def setFieldValue (obj : Doc) (v : GoVal) : Except String Doc :=
  match v with
  | .vstr s => .ok (docSet obj "svalue" (.str s))
  | v' =>
      match GetFloatFromInterface v' with
      | some x => .ok (docSet obj "ivalue" (.num x))
      | none => .error "cannot convert to a number"

/-- The value placement of `setFieldValue` in the non-fatal cases. -/
def flatValueSet (obj : Doc) (v : GoVal) : Doc :=
  match v with
  | .vstr s => docSet obj "svalue" (.str s)
  | .vnum x => docSet obj "ivalue" (.num x)
  | .vother => obj

/-- Base of one unmerged flat field document: `type = "is"+name`,
`time = t`, `period`, `time_added`, `name = fieldName`. -/
def fieldFlatBase (p : TSPoint) (fv : String × GoVal) : Doc :=
  docSet (docSet (docSet (docSet (docSet [] "type" (.str ("is" ++ p.name)))
    "time" (ToESDate p.t)) "period" (.str p.period)) "time_added" (ToESDate p.added))
    "name" (.str fv.1)

/-- One unmerged flat field document. -/
def fieldFlatDoc (p : TSPoint) (fv : String × GoVal) : Except String Doc :=
  setFieldValue (fieldFlatBase p fv) fv.2

/-- Base of one merged flat field document: `type = "i"+mergeS`,
`time = t`, `period`, `series = name`, `time_added`, `name`. -/
def mergedFieldFlatBase (mergeS : String) (p : TSPoint) (fv : String × GoVal) : Doc :=
  docSet (docSet (docSet (docSet (docSet (docSet [] "type" (.str ("i" ++ mergeS)))
    "time" (ToESDate p.t)) "period" (.str p.period)) "series" (.str p.name))
    "time_added" (ToESDate p.added)) "name" (.str fv.1)

/-- One merged flat field document. -/
def mergedFieldFlatDoc (mergeS : String) (p : TSPoint) (fv : String × GoVal) :
    Except String Doc :=
  setFieldValue (mergedFieldFlatBase mergeS p fv) fv.2

/-- Fold a per-field flat document maker over the fields, pairing each
document with its key-field list; the first fatal coercion aborts. -/
def flatFold (mk : String × GoVal → Except String Doc) (ks : List String) :
    List (String × GoVal) → Except String (List (Doc × List String))
  | [] => .ok []
  | fv :: rest =>
      match mk fv with
      | .error m => .error m
      | .ok d =>
          match flatFold mk ks rest with
          | .error m => .error m
          | .ok ds => .ok ((d, ks) :: ds)

/-- Sequence two document-list producers, keeping the first fatal error
(the order the Go function raises them in). -/
def catE (xs ys : Except String (List (Doc × List String))) :
    Except String (List (Doc × List String)) :=
  match xs with
  | .error m => .error m
  | .ok a =>
      match ys with
      | .error m => .error m
      | .ok b => .ok (a ++ b)

/-- Tag documents of one point (`p.tags != nil` guard, wide/array block
then flat block). -/
def tagPart (o : Outputs) (p : TSPoint) : List (Doc × List String) :=
  match p.tags with
  | some ts =>
      (if o.o0 || o.o1 then [(tagsWideArrayDoc o.o0 o.o1 p ts, ["type", "tag_time"])] else [])
        ++ (if o.o2 then ts.map (fun tv => (tagFlatDoc p tv, ["type", "tag_time", "name"])) else [])
  | none => []

/-- Unmerged wide/array field document of one point
(`p.fields != nil && !merge`, `outputs[0] || outputs[1]`). -/
def fieldWAPart (merge : Bool) (o : Outputs) (p : TSPoint) :
    Except String (List (Doc × List String)) :=
  match p.fields, merge with
  | some fs, false =>
      if o.o0 || o.o1 then
        Except.map (fun d => [(d, ["type", "time", "period"])]) (fieldsWideArrayDoc o.o0 o.o1 p fs)
      else .ok []
  | _, _ => .ok []

/-- Unmerged flat field documents of one point. -/
def fieldFlatPart (merge : Bool) (o : Outputs) (p : TSPoint) :
    Except String (List (Doc × List String)) :=
  match p.fields, merge with
  | some fs, false =>
      if o.o2 then flatFold (fieldFlatDoc p) ["type", "time", "period", "name"] fs
      else .ok []
  | _, _ => .ok []

/-- Merged wide/array field document of one point
(`p.fields != nil && merge`). -/
def mergedWAPart (mergeS : String) (merge : Bool) (o : Outputs) (p : TSPoint) :
    Except String (List (Doc × List String)) :=
  match p.fields, merge with
  | some fs, true =>
      if o.o0 || o.o1 then
        Except.map (fun d => [(d, ["type", "time", "period", "series"])])
          (mergedWideArrayDoc mergeS o.o0 o.o1 p fs)
      else .ok []
  | _, _ => .ok []

/-- Merged flat field documents of one point. -/
def mergedFlatPart (mergeS : String) (merge : Bool) (o : Outputs) (p : TSPoint) :
    Except String (List (Doc × List String)) :=
  match p.fields, merge with
  | some fs, true =>
      if o.o2 then flatFold (mergedFieldFlatDoc mergeS p) ["type", "time", "period", "series", "name"] fs
      else .ok []
  | _, _ => .ok []

/-- All documents built from one point, with their key-field lists, in the
order the Go loop body queues them. -/
def buildPoint (mergeS : String) (merge : Bool) (o : Outputs) (p : TSPoint) :
    Except String (List (Doc × List String)) :=
  catE (.ok (tagPart o p))
    (catE (fieldWAPart merge o p)
      (catE (fieldFlatPart merge o p)
        (catE (mergedWAPart mergeS merge o p) (mergedFlatPart mergeS merge o p))))

/-- Documents of a whole point collection. -/
def buildAllPoints (mergeS : String) (merge : Bool) (o : Outputs) :
    List TSPoint → Except String (List (Doc × List String))
  | [] => .ok []
  | p :: ps =>
      match buildPoint mergeS merge o p with
      | .error m => .error m
      | .ok ds =>
          match buildAllPoints mergeS merge o ps with
          | .error m => .error m
          | .ok rest => .ok (ds ++ rest)

/-- Accumulate all built documents into the two bulks via `AddBulksItems`. -/
def bulksFold (project : String) : List (Doc × List String) →
    List DelReq × List AddReq → List DelReq × List AddReq
  | [], acc => acc
  | dk :: rest, acc => bulksFold project rest (AddBulksItems project acc.1 acc.2 dk.1 dk.2)

/-- Observable outcome of `WriteESPoints` up to the network submission:
whether the index existence was checked / creation attempted, the two
accumulated bulks, a fatal coercion error if one occurred (the process
dies before submitting anything), and whether `ExecuteBulks` was reached. -/
structure WriteResult where
  checkedIndex : Bool
  createdIndex : Bool
  bulkDel : List DelReq
  bulkAdd : List AddReq
  fatal : Option String
  submitted : Bool
  deriving DecidableEq, Repr

/-- `WriteESPoints`: early return on an empty point collection; otherwise
derive merge mode (`mergeS = "s"+mergeS` when the label is non-empty),
ensure the index (create when the existence check is negative), build and
accumulate all documents, and submit both bulks. -/
def WriteESPoints (project : String) (pts : List TSPoint) (mergeS : String)
    (outputs : Outputs) (indexExists : Bool) : WriteResult :=
  if pts.length = 0 then ⟨false, false, [], [], none, false⟩
  else
    let merge := mergeS != ""
    let mergeS1 := if mergeS != "" then "s" ++ mergeS else mergeS
    match buildAllPoints mergeS1 merge outputs pts with
    | .error m => ⟨true, !indexExists, [], [], some m, false⟩
    | .ok docs =>
        let bulks := bulksFold project docs ([], [])
        ⟨true, !indexExists, bulks.1, bulks.2, none, true⟩

/-- Outcome of an administrative call (index creation, delete-by-query):
succeeded, tolerated/skipped silently, or fatal. -/
inductive AdminOutcome where
  | ok
  | skipped
  | fatal
  deriving DecidableEq, Repr

/-- `CreateIndex`, as a function of the creation call's response: an error
mentioning "already exists" returns silently; any other error is fatal;
an unacknowledged creation is fatal. -/
def CreateIndex (err : Option String) (acknowledged : Bool) : AdminOutcome :=
  match err with
  | some e => if strContains e "already exists" then .skipped else .fatal
  | none => if acknowledged then .ok else .fatal

/-- `DeleteByQuery`, as a function of the submission's response: an error
mentioning "search_phase_execution_exception" (index just created, nothing
searchable) is tolerated and the delete is skipped; any other error is
fatal. -/
def DeleteByQuery (err : Option String) : AdminOutcome :=
  match err with
  | some e => if strContains e "search_phase_execution_exception" then .skipped else .fatal
  | none => .ok

/-- Per-item bulk failure, carrying its `Result` string. -/
structure FailedItem where
  result : String
  deriving DecidableEq, Repr

/-- Bulk submission response: the failed items. -/
structure BulkResult where
  failed : List FailedItem
  deriving DecidableEq, Repr

/-- Outcome of `ExecuteBulks`: fatal during the delete phase (insert never
runs), fatal during the insert phase, or full success. -/
inductive ExecOutcome where
  | fatalDelete
  | fatalInsert
  | ok
  deriving DecidableEq, Repr

/-- The insert phase of `ExecuteBulks`: any submission error, leftover
action, or per-item failure is fatal. -/
def insertPhase (addErr : Option String) (addActions : Nat) (addRes : BulkResult) :
    ExecOutcome :=
  match addErr with
  | some _ => .fatalInsert
  | none =>
      if addActions ≠ 0 then .fatalInsert
      else if 0 < addRes.failed.length then .fatalInsert
      else .ok

/-- `ExecuteBulks`, as a function of the two submissions' responses
(`delErr`/`addErr` the submission errors, `delActions`/`addActions` the
leftover `NumberOfActions` after each `Do`, `delRes`/`addRes` the
responses): a delete submission error is fatal; leftover delete actions
are fatal; per-item delete failures whose `Result` contains "not_found"
are discounted and any remaining failure is fatal; then the insert phase
runs. -/
def ExecuteBulks (delErr : Option String) (delActions : Nat) (delRes : BulkResult)
    (addErr : Option String) (addActions : Nat) (addRes : BulkResult) : ExecOutcome :=
  match delErr with
  | some _ => .fatalDelete
  | none =>
      if delActions ≠ 0 then .fatalDelete
      else
        let failedResults := delRes.failed
        let nFailed := failedResults.foldl
          (fun n f => if strContains f.result "not_found" then n - 1 else n)
          failedResults.length
        if 0 < failedResults.length then
          if 0 < nFailed then .fatalDelete else insertPhase addErr addActions addRes
        else insertPhase addErr addActions addRes

/-- Whether the insert phase was reached (the delete phase did not abort). -/
def insertRan (r : ExecOutcome) : Bool :=
  match r with
  | .fatalDelete => false
  | _ => true

/-- Whether an `Except` computation aborted fatally. -/
def isErr {α : Type} (x : Except String α) : Bool :=
  match x with
  | .error _ => true
  | .ok _ => false

/-! ## Lookup lemmas for the document representation -/

theorem docGet_docSet_self (d : Doc) (k : String) (v : EVal) :
    docGet (docSet d k v) k = some v := by
  simp [docGet, docSet, List.find?]

theorem docGet_docSet_ne (d : Doc) (k k' : String) (v : EVal) (h : k' ≠ k) :
    docGet (docSet d k v) k' = docGet d k' := by
  have hf : (k == k') = false := beq_eq_false_iff_ne.mpr (Ne.symm h)
  simp [docGet, docSet, List.find?, hf]

/-! ## Claim C10: empty point collection is a complete no-op -/

/-- C10: for an empty point collection `WriteESPoints` returns immediately:
the index existence is not checked, no index is created, both bulks are
empty, nothing is fatal and nothing is submitted; the existence check
happens exactly when at least one point is supplied. -/
theorem write_es_points_empty_noop (project mergeS : String) (o : Outputs) (ex : Bool)
    (q : TSPoint) (rest : List TSPoint) :
    WriteESPoints project [] mergeS o ex
        = ⟨false, false, [], [], none, false⟩
      ∧ (WriteESPoints project (q :: rest) mergeS o ex).checkedIndex = true := by
  constructor
  · rfl
  · simp only [WriteESPoints]
    rw [if_neg (by simp)]
    cases h : buildAllPoints (if mergeS != "" then "s" ++ mergeS else mergeS)
      (mergeS != "") o (q :: rest) <;> simp [h]

/-! ## Claim C8: the bulk accumulator pairs one delete with one insert -/

/-- C8: one call to `AddBulksItems` appends exactly one delete-by-identity
request and one insert request with the full document body, both carrying
the identity hashed from the key fields and both targeting the destination
index; batches whose identities matched pairwise before the call still
match after it (and have equal lengths). -/
theorem add_bulks_items_pairing (project : String) (bd : List DelReq) (ba : List AddReq)
    (doc : Doc) (keys : List String)
    (hids : bd.map (fun r => r.id) = ba.map (fun r => r.id)) :
    (AddBulksItems project bd ba doc keys).1
        = bd ++ [⟨ESIndexName project, HashObject doc keys⟩]
      ∧ (AddBulksItems project bd ba doc keys).2
        = ba ++ [⟨ESIndexName project, HashObject doc keys, doc⟩]
      ∧ (AddBulksItems project bd ba doc keys).1.length
        = (AddBulksItems project bd ba doc keys).2.length
      ∧ (AddBulksItems project bd ba doc keys).1.map (fun r => r.id)
        = (AddBulksItems project bd ba doc keys).2.map (fun r => r.id) := by
  refine ⟨rfl, rfl, ?_, ?_⟩
  · have hlen := congrArg List.length hids
    simp only [List.length_map] at hlen
    simp [AddBulksItems, hlen]
  · simp [AddBulksItems, hids]

theorem add_bulks_items_pairing_witness :
    (AddBulksItems "gha" [] [] [("type", EVal.str "x")] ["type"]).1
        = [⟨ESIndexName "gha", HashObject [("type", EVal.str "x")] ["type"]⟩]
      ∧ (AddBulksItems "gha" [] [] [("type", EVal.str "x")] ["type"]).2
        = [⟨ESIndexName "gha", HashObject [("type", EVal.str "x")] ["type"],
            [("type", EVal.str "x")]⟩]
      ∧ (AddBulksItems "gha" [] [] [("type", EVal.str "x")] ["type"]).1.length
        = (AddBulksItems "gha" [] [] [("type", EVal.str "x")] ["type"]).2.length
      ∧ (AddBulksItems "gha" [] [] [("type", EVal.str "x")] ["type"]).1.map (fun r => r.id)
        = (AddBulksItems "gha" [] [] [("type", EVal.str "x")] ["type"]).2.map (fun r => r.id) := by
  have h := add_bulks_items_pairing "gha" [] [] [("type", EVal.str "x")] ["type"] rfl
  simpa using h

/-! ## Claim C9: index creation tolerates the lost-creation race -/

/-- C9: if index creation fails with an error mentioning "already exists"
the function returns silently; any other creation error is fatal, as is an
unacknowledged creation; an acknowledged creation succeeds. -/
theorem create_index_race_tolerance (e1 e2 : String) (ack : Bool)
    (h1 : strContains e1 "already exists" = true)
    (h2 : strContains e2 "already exists" = false) :
    CreateIndex (some e1) ack = AdminOutcome.skipped
      ∧ CreateIndex (some e2) ack = AdminOutcome.fatal
      ∧ CreateIndex none false = AdminOutcome.fatal
      ∧ CreateIndex none true = AdminOutcome.ok := by
  refine ⟨?_, ?_, rfl, rfl⟩
  · simp [CreateIndex, h1]
  · simp [CreateIndex, h2]

theorem create_index_race_tolerance_witness :
    CreateIndex (some "index d_kubernetes already exists") true = AdminOutcome.skipped
      ∧ CreateIndex (some "connection refused") true = AdminOutcome.fatal
      ∧ CreateIndex none false = AdminOutcome.fatal
      ∧ CreateIndex none true = AdminOutcome.ok :=
  create_index_race_tolerance "index d_kubernetes already exists" "connection refused" true
    (by decide) (by decide)

/-! ## Claim C1: where the search-phase tolerance actually lives -/

/-- C1 (counterexample): a delete-batch submission in `ExecuteBulks` that
fails with a search/query-phase error is NOT tolerated: the call is fatal
in the delete phase and the insert phase never runs, contrary to the
claim. -/
theorem executeBulks_search_phase_counterexample :
    ExecuteBulks (some "search_phase_execution_exception") 0 ⟨[]⟩ none 0 ⟨[]⟩
        = ExecOutcome.fatalDelete
      ∧ insertRan (ExecuteBulks (some "search_phase_execution_exception") 0 ⟨[]⟩ none 0 ⟨[]⟩)
        = false := ⟨rfl, rfl⟩

/-- C1 (amended): the search/query-phase tolerance belongs to
`DeleteByQuery`, which skips the delete silently on such an error; in
`ExecuteBulks` every delete-batch submission error — including a
search/query-phase one — is fatal and the insert phase does not run. -/
theorem search_phase_tolerance_in_delete_by_query (e : String)
    (h : strContains e "search_phase_execution_exception" = true)
    (delActions : Nat) (delRes : BulkResult) (addErr : Option String)
    (addActions : Nat) (addRes : BulkResult) :
    DeleteByQuery (some e) = AdminOutcome.skipped
      ∧ ExecuteBulks (some e) delActions delRes addErr addActions addRes
        = ExecOutcome.fatalDelete
      ∧ insertRan (ExecuteBulks (some e) delActions delRes addErr addActions addRes)
        = false := by
  refine ⟨?_, rfl, rfl⟩
  simp [DeleteByQuery, h]

theorem search_phase_tolerance_witness :
    DeleteByQuery (some "search_phase_execution_exception") = AdminOutcome.skipped
      ∧ ExecuteBulks (some "search_phase_execution_exception") 3 ⟨[⟨"x"⟩]⟩ none 0 ⟨[]⟩
        = ExecOutcome.fatalDelete
      ∧ insertRan (ExecuteBulks (some "search_phase_execution_exception") 3 ⟨[⟨"x"⟩]⟩ none 0 ⟨[]⟩)
        = false :=
  search_phase_tolerance_in_delete_by_query "search_phase_execution_exception" (by decide)
    3 ⟨[⟨"x"⟩]⟩ none 0 ⟨[]⟩

/-! ## Claim C3: not-found tolerance in the delete phase -/
theorem foldl_discount (p : FailedItem → Bool) (l : List FailedItem) :
    ∀ k : Nat,
      l.foldl (fun n f => if p f then n - 1 else n) (l.length + k)
        = (l.filter (fun f => !(p f))).length + k := by
  induction l with
  | nil => intro k; simp
  | cons x rest ih =>
      intro k
      cases hp : p x with
      | true =>
          have harith : rest.length + 1 + k - 1 = rest.length + k := by omega
          simp only [List.foldl_cons, List.filter_cons, List.length_cons, hp,
            Bool.not_true, Bool.false_eq_true, if_false, eq_self_iff_true, if_true]
          rw [harith, ih k]
      | false =>
          have harith : rest.length + 1 + k = rest.length + (k + 1) := by omega
          simp only [List.foldl_cons, List.filter_cons, List.length_cons, hp,
            Bool.not_false, Bool.false_eq_true, if_false, eq_self_iff_true, if_true]
          rw [harith, ih (k + 1)]
          omega

theorem insertPhase_insertRan (e : Option String) (a : Nat) (r : BulkResult) :
    insertRan (insertPhase e a r) = true := by
  cases e with
  | some m => rfl
  | none =>
      simp only [insertPhase]
      split
      · rfl
      · split <;> rfl

theorem insertPhase_ne_fatalDelete (e : Option String) (a : Nat) (r : BulkResult) :
    insertPhase e a r ≠ ExecOutcome.fatalDelete := by
  cases e with
  | some m => simp [insertPhase]
  | none =>
      simp only [insertPhase]
      split
      · simp
      · split <;> simp

theorem executeBulks_delete_phase (delRes : BulkResult) (addErr : Option String)
    (addActions : Nat) (addRes : BulkResult) :
    ExecuteBulks none 0 delRes addErr addActions addRes
      = (if delRes.failed.all (fun f => strContains f.result "not_found") = true
         then insertPhase addErr addActions addRes
         else ExecOutcome.fatalDelete) := by
  have hfold := foldl_discount (fun f => strContains f.result "not_found") delRes.failed 0
  simp only [Nat.add_zero] at hfold
  simp only [ExecuteBulks, if_neg (by omega : ¬(0 : Nat) ≠ 0), hfold]
  cases hall : delRes.failed.all (fun f => strContains f.result "not_found") with
  | true =>
      have hnil : delRes.failed.filter (fun f => !(strContains f.result "not_found")) = [] := by
        rw [List.filter_eq_nil_iff]
        intro f hf
        simp [List.all_eq_true.mp hall f hf]
      rw [hnil]
      simp
  | false =>
      have hnall : ¬ (∀ f ∈ delRes.failed, strContains f.result "not_found" = true) := by
        rw [← List.all_eq_true]
        simp [hall]
      push_neg at hnall
      obtain ⟨f, hfmem, hfp⟩ := hnall
      have hmemf : f ∈ delRes.failed.filter (fun g => !(strContains g.result "not_found")) :=
        List.mem_filter.mpr ⟨hfmem, by simp [Bool.eq_false_iff.mpr hfp]⟩
      have hpos : 0 < (delRes.failed.filter (fun g => !(strContains g.result "not_found"))).length :=
        List.length_pos.mpr (List.ne_nil_of_mem hmemf)
      rw [if_pos (List.length_pos.mpr (List.ne_nil_of_mem hfmem)), if_pos hpos]
      simp

/-- C3: with a clean delete submission and no leftover actions, the insert
phase runs exactly when every per-item delete failure's result mentions
"not_found"; equivalently, the call aborts fatally in the delete phase
(before any insert) exactly when some per-item failure is not a
not-found. -/
theorem delete_not_found_tolerance (delRes : BulkResult) (addErr : Option String)
    (addActions : Nat) (addRes : BulkResult) :
    insertRan (ExecuteBulks none 0 delRes addErr addActions addRes)
        = delRes.failed.all (fun f => strContains f.result "not_found")
      ∧ (ExecuteBulks none 0 delRes addErr addActions addRes = ExecOutcome.fatalDelete
          ↔ delRes.failed.all (fun f => strContains f.result "not_found") = false) := by
  rw [executeBulks_delete_phase]
  cases hall : delRes.failed.all (fun f => strContains f.result "not_found") with
  | true =>
      rw [if_pos rfl]
      exact ⟨insertPhase_insertRan _ _ _,
        by simp [insertPhase_ne_fatalDelete addErr addActions addRes]⟩
  | false =>
      rw [if_neg (by simp)]
      exact ⟨rfl, by simp⟩

/-! ## Tag-loop lemmas and claim C4 -/

theorem tagsLoop_snd (o0 : Bool) (ts : List (String × String))
    (acc : Doc × List ESDataObject) :
    (tagsLoop o0 true ts acc).2
      = acc.2 ++ ts.map (fun tv => (⟨tv.1, 0, tv.2⟩ : ESDataObject)) := by
  induction ts generalizing acc with
  | nil => simp [tagsLoop]
  | cons tv rest ih => simp [tagsLoop, ih]

theorem tagsLoop_docGet_ne (o0 o1 : Bool) (ts : List (String × String))
    (acc : Doc × List ESDataObject) (k : String)
    (h : ∀ tv ∈ ts, ESEscapeFieldName tv.1 ≠ k) :
    docGet (tagsLoop o0 o1 ts acc).1 k = docGet acc.1 k := by
  induction ts generalizing acc with
  | nil => rfl
  | cons tv rest ih =>
      simp only [tagsLoop]
      rw [ih _ (fun x hx => h x (List.mem_cons_of_mem _ hx))]
      cases o0 with
      | false => rfl
      | true =>
          exact docGet_docSet_ne _ _ _ _ (Ne.symm (h tv (List.mem_cons_self _ _)))

theorem tagsLoop_docGet_mem (o1 : Bool) (ts : List (String × String)) :
    ∀ (acc : Doc × List ESDataObject) (tv : String × String), tv ∈ ts →
      (ts.map (fun x => ESEscapeFieldName x.1)).Nodup →
      docGet (tagsLoop true o1 ts acc).1 (ESEscapeFieldName tv.1) = some (.str tv.2) := by
  induction ts with
  | nil => intro acc tv hmem hnd; cases hmem
  | cons x rest ih =>
      intro acc tv hmem hnd
      simp only [List.map_cons, List.nodup_cons] at hnd
      rcases List.mem_cons.mp hmem with h1 | h2
      · subst h1
        simp only [tagsLoop]
        have hne : ∀ y ∈ rest, ESEscapeFieldName y.1 ≠ ESEscapeFieldName tv.1 := by
          intro y hy heq
          exact hnd.1 (heq ▸ List.mem_map_of_mem (fun z => ESEscapeFieldName z.1) hy)
        rw [tagsLoop_docGet_ne true o1 rest _ _ hne]
        exact docGet_docSet_self _ _ _
      · simp only [tagsLoop]
        exact ih _ tv h2 hnd.2

theorem tagsWideArrayDoc_true (p : TSPoint) (ts : List (String × String)) :
    tagsWideArrayDoc true true p ts
      = docSet (tagsLoop true true ts (tagsWABase p, [])).1 "data"
          (.data (tagsLoop true true ts (tagsWABase p, [])).2) := rfl

/-- C4: with wide and array both enabled (and flat off), a tag-bearing
point yields exactly one combined document: each tag appears as a
top-level attribute under its escaped name AND as one entry of the
embedded `data` sequence, which has exactly one entry per tag. -/
theorem wide_array_combined_tag_document (mergeS : String) (merge : Bool)
    (p : TSPoint) (ts : List (String × String))
    (htags : p.tags = some ts) (hfields : p.fields = none)
    (hnd : (ts.map (fun tv => ESEscapeFieldName tv.1)).Nodup)
    (hdata : ∀ tv ∈ ts, ESEscapeFieldName tv.1 ≠ "data") :
    buildPoint mergeS merge ⟨true, true, false⟩ p
        = .ok [(tagsWideArrayDoc true true p ts, ["type", "tag_time"])]
      ∧ (ts.all fun tv =>
          decide (docGet (tagsWideArrayDoc true true p ts) (ESEscapeFieldName tv.1)
            = some (.str tv.2))) = true
      ∧ docGet (tagsWideArrayDoc true true p ts) "data"
        = some (.data (ts.map (fun tv => (⟨tv.1, 0, tv.2⟩ : ESDataObject))))
      ∧ (ts.map (fun tv => (⟨tv.1, 0, tv.2⟩ : ESDataObject))).length = ts.length := by
  refine ⟨?_, ?_, ?_, by simp⟩
  · simp [buildPoint, tagPart, fieldWAPart, fieldFlatPart, mergedWAPart, mergedFlatPart,
      catE, htags, hfields]
  · rw [List.all_eq_true]
    intro tv hmem
    rw [decide_eq_true_eq, tagsWideArrayDoc_true,
      docGet_docSet_ne _ _ _ _ (hdata tv hmem)]
    exact tagsLoop_docGet_mem true ts _ tv hmem hnd
  · rw [tagsWideArrayDoc_true, docGet_docSet_self]
    simp [tagsLoop_snd]

theorem wide_array_combined_tag_document_witness :
    buildPoint "" false ⟨true, true, false⟩
        ⟨"repo", some [("a.b", "x"), ("c", "y")], none, 5, 7, "d"⟩
        = .ok [(tagsWideArrayDoc true true
            ⟨"repo", some [("a.b", "x"), ("c", "y")], none, 5, 7, "d"⟩
            [("a.b", "x"), ("c", "y")], ["type", "tag_time"])]
      ∧ ([("a.b", "x"), ("c", "y")].all fun tv =>
          decide (docGet (tagsWideArrayDoc true true
              ⟨"repo", some [("a.b", "x"), ("c", "y")], none, 5, 7, "d"⟩
              [("a.b", "x"), ("c", "y")]) (ESEscapeFieldName tv.1)
            = some (.str tv.2))) = true
      ∧ docGet (tagsWideArrayDoc true true
            ⟨"repo", some [("a.b", "x"), ("c", "y")], none, 5, 7, "d"⟩
            [("a.b", "x"), ("c", "y")]) "data"
        = some (.data ([("a.b", "x"), ("c", "y")].map
            (fun tv => (⟨tv.1, 0, tv.2⟩ : ESDataObject))))
      ∧ ([("a.b", "x"), ("c", "y")].map
          (fun tv => (⟨tv.1, 0, tv.2⟩ : ESDataObject))).length
        = ([("a.b", "x"), ("c", "y")] : List (String × String)).length :=
  wide_array_combined_tag_document "" false _ _ rfl rfl (by decide) (by decide)

/-! ## Flat-document lemmas and claim C5 -/

theorem setFieldValue_ok (obj : Doc) (v : GoVal) (h : v ≠ GoVal.vother) :
    setFieldValue obj v = .ok (flatValueSet obj v) := by
  cases v with
  | vstr s => rfl
  | vnum x => rfl
  | vother => exact absurd rfl h

theorem flatFold_ok_of_coercible (mk : String × GoVal → Except String Doc)
    (B : String × GoVal → Doc) (ks : List String) (fs : List (String × GoVal))
    (hmk : ∀ fv, mk fv = setFieldValue (B fv) fv.2)
    (h : ∀ fv ∈ fs, fv.2 ≠ GoVal.vother) :
    flatFold mk ks fs = .ok (fs.map (fun fv => (flatValueSet (B fv) fv.2, ks))) := by
  induction fs with
  | nil => rfl
  | cons fv rest ih =>
      simp only [flatFold, List.map_cons]
      rw [hmk fv, setFieldValue_ok _ _ (h fv (List.mem_cons_self _ _)),
        ih (fun y hy => h y (List.mem_cons_of_mem _ hy))]

theorem fieldFlat_docGet (p : TSPoint) (fv : String × GoVal) :
    docGet (flatValueSet (fieldFlatBase p fv) fv.2) "type" = some (.str ("is" ++ p.name))
      ∧ docGet (flatValueSet (fieldFlatBase p fv) fv.2) "name" = some (.str fv.1) := by
  cases hv : fv.2 with
  | vstr s => exact ⟨rfl, rfl⟩
  | vnum x => exact ⟨rfl, rfl⟩
  | vother => exact ⟨rfl, rfl⟩

/-- C5: with flat output enabled and merge off, a point with N fields
produces exactly N documents (one per field), each typed `"is"+name`,
each carrying its own field name in the `name` attribute (all distinct),
with key-field list `[type, time, period, name]`. -/
theorem flat_unmerged_fan_out (p : TSPoint) (fs : List (String × GoVal))
    (hfields : p.fields = some fs) (htags : p.tags = none)
    (hnd : (fs.map Prod.fst).Nodup)
    (hco : ∀ fv ∈ fs, fv.2 ≠ GoVal.vother) :
    buildPoint "" false ⟨false, false, true⟩ p
        = .ok (fs.map (fun fv =>
            (flatValueSet (fieldFlatBase p fv) fv.2, ["type", "time", "period", "name"])))
      ∧ (fs.map (fun fv =>
            (flatValueSet (fieldFlatBase p fv) fv.2, ["type", "time", "period", "name"]))).length
        = fs.length
      ∧ (fs.all fun fv =>
          decide (docGet (flatValueSet (fieldFlatBase p fv) fv.2) "type"
              = some (.str ("is" ++ p.name))
            ∧ docGet (flatValueSet (fieldFlatBase p fv) fv.2) "name"
              = some (.str fv.1))) = true
      ∧ (fs.map (fun fv => docGet (flatValueSet (fieldFlatBase p fv) fv.2) "name")).Nodup := by
  have hflat : flatFold (fieldFlatDoc p) ["type", "time", "period", "name"] fs
      = .ok (fs.map (fun fv =>
          (flatValueSet (fieldFlatBase p fv) fv.2, ["type", "time", "period", "name"]))) :=
    flatFold_ok_of_coercible _ _ _ _ (fun fv => rfl) hco
  refine ⟨?_, by simp, ?_, ?_⟩
  · simp [buildPoint, tagPart, fieldWAPart, fieldFlatPart, mergedWAPart, mergedFlatPart,
      catE, htags, hfields, hflat]
  · rw [List.all_eq_true]
    intro fv hmem
    rw [decide_eq_true_eq]
    exact fieldFlat_docGet p fv
  · have hmap : fs.map (fun fv => docGet (flatValueSet (fieldFlatBase p fv) fv.2) "name")
        = fs.map (fun fv => some (EVal.str fv.1)) :=
      List.map_congr_left (fun fv hmem => (fieldFlat_docGet p fv).2)
    have hsplit : fs.map (fun fv => some (EVal.str fv.1))
        = (fs.map Prod.fst).map (fun s => some (EVal.str s)) := by
      rw [List.map_map]
      rfl
    rw [hmap, hsplit]
    exact List.Nodup.map (fun a b hab => by simpa using hab) hnd

theorem flat_unmerged_fan_out_witness :
    buildPoint "" false ⟨false, false, true⟩
        ⟨"x", none, some [("a", .vnum 3), ("b", .vstr "v"), ("c", .vnum 7)], 1, 2, "w"⟩
        = .ok ([("a", GoVal.vnum 3), ("b", GoVal.vstr "v"), ("c", GoVal.vnum 7)].map (fun fv =>
            (flatValueSet (fieldFlatBase
              ⟨"x", none, some [("a", .vnum 3), ("b", .vstr "v"), ("c", .vnum 7)], 1, 2, "w"⟩
              fv) fv.2, ["type", "time", "period", "name"])))
      ∧ ([("a", GoVal.vnum 3), ("b", GoVal.vstr "v"), ("c", GoVal.vnum 7)].map (fun fv =>
            (flatValueSet (fieldFlatBase
              ⟨"x", none, some [("a", .vnum 3), ("b", .vstr "v"), ("c", .vnum 7)], 1, 2, "w"⟩
              fv) fv.2, ["type", "time", "period", "name"]))).length
        = [("a", GoVal.vnum 3), ("b", GoVal.vstr "v"), ("c", GoVal.vnum 7)].length
      ∧ ([("a", GoVal.vnum 3), ("b", GoVal.vstr "v"), ("c", GoVal.vnum 7)].all fun fv =>
          decide (docGet (flatValueSet (fieldFlatBase
              ⟨"x", none, some [("a", .vnum 3), ("b", .vstr "v"), ("c", .vnum 7)], 1, 2, "w"⟩
              fv) fv.2) "type" = some (.str ("is" ++ "x"))
            ∧ docGet (flatValueSet (fieldFlatBase
              ⟨"x", none, some [("a", .vnum 3), ("b", .vstr "v"), ("c", .vnum 7)], 1, 2, "w"⟩
              fv) fv.2) "name" = some (.str fv.1))) = true
      ∧ ([("a", GoVal.vnum 3), ("b", GoVal.vstr "v"), ("c", GoVal.vnum 7)].map (fun fv =>
          docGet (flatValueSet (fieldFlatBase
            ⟨"x", none, some [("a", .vnum 3), ("b", .vstr "v"), ("c", .vnum 7)], 1, 2, "w"⟩
            fv) fv.2) "name")).Nodup :=
  flat_unmerged_fan_out
    ⟨"x", none, some [("a", .vnum 3), ("b", .vstr "v"), ("c", .vnum 7)], 1, 2, "w"⟩
    [("a", .vnum 3), ("b", .vstr "v"), ("c", .vnum 7)] rfl rfl (by decide) (by decide)

/-! ## Field-loop lemmas and claim C7 -/

theorem fieldsLoop_false (o0 : Bool) (fs : List (String × GoVal))
    (acc : Doc × List ESDataObject) :
    fieldsLoop o0 false fs acc = .ok (fieldsLoopPlain o0 fs acc.1, acc.2) := by
  induction fs generalizing acc with
  | nil => rfl
  | cons fv rest ih =>
      simp only [fieldsLoop, fieldsLoopPlain, Bool.false_eq_true, if_false]
      exact ih _

theorem fieldsLoopPlain_docGet_ne (o0 : Bool) (fs : List (String × GoVal)) :
    ∀ (d : Doc) (k : String), (∀ fv ∈ fs, ESEscapeFieldName fv.1 ≠ k) →
      docGet (fieldsLoopPlain o0 fs d) k = docGet d k := by
  induction fs with
  | nil => intro d k h; rfl
  | cons fv rest ih =>
      intro d k h
      simp only [fieldsLoopPlain]
      rw [ih _ k (fun y hy => h y (List.mem_cons_of_mem _ hy))]
      cases o0 with
      | false => rfl
      | true => exact docGet_docSet_ne _ _ _ _ (Ne.symm (h fv (List.mem_cons_self _ _)))

theorem buildPoint_merged_wide (mergeS : String) (p : TSPoint) (fs : List (String × GoVal))
    (htags : p.tags = none) (hfields : p.fields = some fs) :
    buildPoint mergeS true ⟨true, false, false⟩ p
      = .ok [(fieldsLoopPlain true fs (mergedWABase mergeS p),
          ["type", "time", "period", "series"])] := by
  simp [buildPoint, tagPart, fieldWAPart, fieldFlatPart, mergedWAPart, mergedFlatPart,
    catE, mergedWideArrayDoc, fieldsLoop_false, Except.map, htags, hfields]

/-- C7: with merge mode on and wide output, each field-bearing point
yields one document typed `"s"+mergeLabel` whose `series` attribute is the
point's series name, with key fields `[type, time, period, series]`; two
points from different series (same time and period) therefore get distinct
identities and two distinct documents are queued, not one. -/
theorem merged_series_key_distinct_documents (proj label : String) (ex : Bool)
    (p1 p2 : TSPoint) (fs1 fs2 : List (String × GoVal))
    (hl : (label == "") = false)
    (ht1 : p1.tags = none) (hf1 : p1.fields = some fs1)
    (ht2 : p2.tags = none) (hf2 : p2.fields = some fs2)
    (hname : p1.name ≠ p2.name)
    (htime : p1.t = p2.t) (hper : p1.period = p2.period)
    (hc1 : ∀ fv ∈ fs1, ESEscapeFieldName fv.1 ≠ "type" ∧ ESEscapeFieldName fv.1 ≠ "series")
    (hc2 : ∀ fv ∈ fs2, ESEscapeFieldName fv.1 ≠ "type" ∧ ESEscapeFieldName fv.1 ≠ "series") :
    (WriteESPoints proj [p1, p2] label ⟨true, false, false⟩ ex).fatal = none
      ∧ (WriteESPoints proj [p1, p2] label ⟨true, false, false⟩ ex).submitted = true
      ∧ (WriteESPoints proj [p1, p2] label ⟨true, false, false⟩ ex).bulkAdd.length = 2
      ∧ (WriteESPoints proj [p1, p2] label ⟨true, false, false⟩ ex).bulkAdd.map
          (fun a => docGet a.doc "type")
        = [some (.str ("s" ++ label)), some (.str ("s" ++ label))]
      ∧ (WriteESPoints proj [p1, p2] label ⟨true, false, false⟩ ex).bulkAdd.map
          (fun a => docGet a.doc "series")
        = [some (.str p1.name), some (.str p2.name)]
      ∧ buildPoint ("s" ++ label) true ⟨true, false, false⟩ p1
        = .ok [(fieldsLoopPlain true fs1 (mergedWABase ("s" ++ label) p1),
            ["type", "time", "period", "series"])]
      ∧ ((WriteESPoints proj [p1, p2] label ⟨true, false, false⟩ ex).bulkAdd.map
          (fun a => a.id)).Nodup := by
  have hmerge : (label != "") = true := by simp [bne, hl]
  have hty1 : docGet (fieldsLoopPlain true fs1 (mergedWABase ("s" ++ label) p1)) "type"
      = some (.str ("s" ++ label)) := by
    rw [fieldsLoopPlain_docGet_ne true fs1 _ _ (fun fv hv => (hc1 fv hv).1)]
    rfl
  have hty2 : docGet (fieldsLoopPlain true fs2 (mergedWABase ("s" ++ label) p2)) "type"
      = some (.str ("s" ++ label)) := by
    rw [fieldsLoopPlain_docGet_ne true fs2 _ _ (fun fv hv => (hc2 fv hv).1)]
    rfl
  have hse1 : docGet (fieldsLoopPlain true fs1 (mergedWABase ("s" ++ label) p1)) "series"
      = some (.str p1.name) := by
    rw [fieldsLoopPlain_docGet_ne true fs1 _ _ (fun fv hv => (hc1 fv hv).2)]
    rfl
  have hse2 : docGet (fieldsLoopPlain true fs2 (mergedWABase ("s" ++ label) p2)) "series"
      = some (.str p2.name) := by
    rw [fieldsLoopPlain_docGet_ne true fs2 _ _ (fun fv hv => (hc2 fv hv).2)]
    rfl
  have hall : buildAllPoints ("s" ++ label) true ⟨true, false, false⟩ [p1, p2]
      = .ok [(fieldsLoopPlain true fs1 (mergedWABase ("s" ++ label) p1),
              ["type", "time", "period", "series"]),
             (fieldsLoopPlain true fs2 (mergedWABase ("s" ++ label) p2),
              ["type", "time", "period", "series"])] := by
    simp [buildAllPoints, buildPoint_merged_wide ("s" ++ label) p1 fs1 ht1 hf1,
      buildPoint_merged_wide ("s" ++ label) p2 fs2 ht2 hf2]
  have hw : WriteESPoints proj [p1, p2] label ⟨true, false, false⟩ ex
      = ⟨true, !ex,
         [⟨ESIndexName proj, HashObject
            (fieldsLoopPlain true fs1 (mergedWABase ("s" ++ label) p1))
            ["type", "time", "period", "series"]⟩,
          ⟨ESIndexName proj, HashObject
            (fieldsLoopPlain true fs2 (mergedWABase ("s" ++ label) p2))
            ["type", "time", "period", "series"]⟩],
         [⟨ESIndexName proj, HashObject
            (fieldsLoopPlain true fs1 (mergedWABase ("s" ++ label) p1))
            ["type", "time", "period", "series"],
            fieldsLoopPlain true fs1 (mergedWABase ("s" ++ label) p1)⟩,
          ⟨ESIndexName proj, HashObject
            (fieldsLoopPlain true fs2 (mergedWABase ("s" ++ label) p2))
            ["type", "time", "period", "series"],
            fieldsLoopPlain true fs2 (mergedWABase ("s" ++ label) p2)⟩],
         none, true⟩ := by
    simp [WriteESPoints, hmerge, hall, bulksFold, AddBulksItems]
  have hid : HashObject (fieldsLoopPlain true fs1 (mergedWABase ("s" ++ label) p1))
        ["type", "time", "period", "series"]
      ≠ HashObject (fieldsLoopPlain true fs2 (mergedWABase ("s" ++ label) p2))
        ["type", "time", "period", "series"] := by
    intro heq
    simp only [HashObject, List.map_cons, List.map_nil, List.cons.injEq, and_true] at heq
    have hss := heq.2.2.2
    rw [hse1, hse2] at hss
    exact hname (by simpa using hss)
  rw [hw]
  refine ⟨rfl, rfl, rfl, ?_, ?_, buildPoint_merged_wide ("s" ++ label) p1 fs1 ht1 hf1, ?_⟩
  · simp [hty1, hty2]
  · simp [hse1, hse2]
  · simp [List.nodup_cons, hid]

theorem merged_series_key_distinct_documents_witness :
    (WriteESPoints "p" [⟨"s1", none, some [("f", .vnum 1)], 3, 4, "d"⟩,
        ⟨"s2", none, some [("f", .vnum 2)], 3, 4, "d"⟩] "q"
        ⟨true, false, false⟩ true).fatal = none
      ∧ (WriteESPoints "p" [⟨"s1", none, some [("f", .vnum 1)], 3, 4, "d"⟩,
          ⟨"s2", none, some [("f", .vnum 2)], 3, 4, "d"⟩] "q"
          ⟨true, false, false⟩ true).submitted = true
      ∧ (WriteESPoints "p" [⟨"s1", none, some [("f", .vnum 1)], 3, 4, "d"⟩,
          ⟨"s2", none, some [("f", .vnum 2)], 3, 4, "d"⟩] "q"
          ⟨true, false, false⟩ true).bulkAdd.length = 2
      ∧ (WriteESPoints "p" [⟨"s1", none, some [("f", .vnum 1)], 3, 4, "d"⟩,
          ⟨"s2", none, some [("f", .vnum 2)], 3, 4, "d"⟩] "q"
          ⟨true, false, false⟩ true).bulkAdd.map (fun a => docGet a.doc "type")
        = [some (.str ("s" ++ "q")), some (.str ("s" ++ "q"))]
      ∧ (WriteESPoints "p" [⟨"s1", none, some [("f", .vnum 1)], 3, 4, "d"⟩,
          ⟨"s2", none, some [("f", .vnum 2)], 3, 4, "d"⟩] "q"
          ⟨true, false, false⟩ true).bulkAdd.map (fun a => docGet a.doc "series")
        = [some (.str "s1"), some (.str "s2")]
      ∧ buildPoint ("s" ++ "q") true ⟨true, false, false⟩
          ⟨"s1", none, some [("f", .vnum 1)], 3, 4, "d"⟩
        = .ok [(fieldsLoopPlain true [("f", GoVal.vnum 1)]
            (mergedWABase ("s" ++ "q") ⟨"s1", none, some [("f", .vnum 1)], 3, 4, "d"⟩),
            ["type", "time", "period", "series"])]
      ∧ ((WriteESPoints "p" [⟨"s1", none, some [("f", .vnum 1)], 3, 4, "d"⟩,
          ⟨"s2", none, some [("f", .vnum 2)], 3, 4, "d"⟩] "q"
          ⟨true, false, false⟩ true).bulkAdd.map (fun a => a.id)).Nodup :=
  merged_series_key_distinct_documents "p" "q" true
    ⟨"s1", none, some [("f", .vnum 1)], 3, 4, "d"⟩
    ⟨"s2", none, some [("f", .vnum 2)], 3, 4, "d"⟩
    [("f", .vnum 1)] [("f", .vnum 2)]
    rfl rfl rfl rfl rfl (by decide) rfl rfl (by decide) (by decide)

/-! ## Part-inversion lemmas and claim C6 -/

theorem catE_ok_left (a : List (Doc × List String))
    (y : Except String (List (Doc × List String))) (l : List (Doc × List String))
    (h : catE (.ok a) y = .ok l) : ∃ b, y = .ok b ∧ l = a ++ b := by
  cases y with
  | error m => simp [catE] at h
  | ok b =>
      simp only [catE, Except.ok.injEq] at h
      exact ⟨b, rfl, h.symm⟩

theorem catE_ok (x y : Except String (List (Doc × List String)))
    (l : List (Doc × List String)) (h : catE x y = .ok l) :
    ∃ a b, x = .ok a ∧ y = .ok b ∧ l = a ++ b := by
  cases x with
  | error m => simp [catE] at h
  | ok a =>
      obtain ⟨b, hy, hl⟩ := catE_ok_left a y l h
      exact ⟨a, b, rfl, hy, hl⟩

theorem tagPart_keys (o : Outputs) (p : TSPoint) (dk : Doc × List String)
    (h : dk ∈ tagPart o p) :
    dk.2 = ["type", "tag_time"] ∨ dk.2 = ["type", "tag_time", "name"] := by
  unfold tagPart at h
  cases hp : p.tags with
  | none => rw [hp] at h; cases h
  | some ts =>
      rw [hp] at h
      rcases List.mem_append.mp h with h1 | h2
      · left
        split at h1
        · rw [List.mem_singleton.mp h1]
        · cases h1
      · right
        split at h2
        · obtain ⟨tv, htv, heq⟩ := List.mem_map.mp h2
          rw [← heq]
        · cases h2

theorem mergedWAPart_off (mergeS : String) (o : Outputs) (p : TSPoint) :
    mergedWAPart mergeS false o p = .ok [] := by
  unfold mergedWAPart
  cases p.fields <;> rfl

theorem mergedFlatPart_off (mergeS : String) (o : Outputs) (p : TSPoint) :
    mergedFlatPart mergeS false o p = .ok [] := by
  unfold mergedFlatPart
  cases p.fields <;> rfl

theorem fieldWAPart_on (o : Outputs) (p : TSPoint) :
    fieldWAPart true o p = .ok [] := by
  unfold fieldWAPart
  cases p.fields <;> rfl

theorem fieldFlatPart_on (o : Outputs) (p : TSPoint) :
    fieldFlatPart true o p = .ok [] := by
  unfold fieldFlatPart
  cases p.fields <;> rfl

theorem fieldsLoop_ok_fst (o0 o1 : Bool) (fs : List (String × GoVal)) :
    ∀ (acc r : Doc × List ESDataObject), fieldsLoop o0 o1 fs acc = .ok r →
      r.1 = fieldsLoopPlain o0 fs acc.1 := by
  induction fs with
  | nil =>
      intro acc r hr
      simp only [fieldsLoop, Except.ok.injEq] at hr
      rw [← hr]
      rfl
  | cons fv rest ih =>
      intro acc r hr
      cases o1 with
      | false =>
          rw [fieldsLoop_false] at hr
          simp only [Except.ok.injEq] at hr
          rw [← hr]
      | true =>
          simp only [fieldsLoop] at hr
          cases hv : fv.2 with
          | vstr s =>
              rw [hv] at hr
              rw [ih _ _ hr]
              simp [fieldsLoopPlain, hv]
          | vnum x =>
              rw [hv] at hr
              simp only [GetFloatFromInterface] at hr
              rw [ih _ _ hr]
              simp [fieldsLoopPlain, hv]
          | vother =>
              rw [hv] at hr
              simp only [GetFloatFromInterface] at hr
              cases hr

theorem fieldsWideArrayDoc_docGet (o0 o1 : Bool) (p : TSPoint)
    (fs : List (String × GoVal)) (d : Doc)
    (hok : fieldsWideArrayDoc o0 o1 p fs = .ok d) (k : String) (hk : k ≠ "data")
    (hc : ∀ fv ∈ fs, ESEscapeFieldName fv.1 ≠ k) :
    docGet d k = docGet (fieldsWABase p) k := by
  unfold fieldsWideArrayDoc at hok
  cases hr : fieldsLoop o0 o1 fs (fieldsWABase p, []) with
  | error m => rw [hr] at hok; cases hok
  | ok r =>
      rw [hr] at hok
      simp only [Except.ok.injEq] at hok
      rw [← hok]
      have hfst := fieldsLoop_ok_fst o0 o1 fs _ _ hr
      cases o1 with
      | false =>
          simp only [Bool.false_eq_true, if_false]
          rw [hfst]
          exact fieldsLoopPlain_docGet_ne o0 fs _ k hc
      | true =>
          simp only [if_true]
          rw [docGet_docSet_ne _ _ _ _ hk, hfst]
          exact fieldsLoopPlain_docGet_ne o0 fs _ k hc

theorem mergedWideArrayDoc_docGet (mergeS : String) (o0 o1 : Bool) (p : TSPoint)
    (fs : List (String × GoVal)) (d : Doc)
    (hok : mergedWideArrayDoc mergeS o0 o1 p fs = .ok d) (k : String) (hk : k ≠ "data")
    (hc : ∀ fv ∈ fs, ESEscapeFieldName fv.1 ≠ k) :
    docGet d k = docGet (mergedWABase mergeS p) k := by
  unfold mergedWideArrayDoc at hok
  cases hr : fieldsLoop o0 o1 fs (mergedWABase mergeS p, []) with
  | error m => rw [hr] at hok; cases hok
  | ok r =>
      rw [hr] at hok
      simp only [Except.ok.injEq] at hok
      rw [← hok]
      have hfst := fieldsLoop_ok_fst o0 o1 fs _ _ hr
      cases o1 with
      | false =>
          simp only [Bool.false_eq_true, if_false]
          rw [hfst]
          exact fieldsLoopPlain_docGet_ne o0 fs _ k hc
      | true =>
          simp only [if_true]
          rw [docGet_docSet_ne _ _ _ _ hk, hfst]
          exact fieldsLoopPlain_docGet_ne o0 fs _ k hc

theorem fieldFlatDoc_docGet (p : TSPoint) (fv : String × GoVal) (d : Doc)
    (hok : fieldFlatDoc p fv = .ok d) :
    docGet d "series" = none ∧ docGet d "type" = some (.str ("is" ++ p.name)) := by
  unfold fieldFlatDoc at hok
  cases hv : fv.2 with
  | vstr s =>
      rw [hv] at hok
      simp only [setFieldValue, Except.ok.injEq] at hok
      rw [← hok]
      exact ⟨rfl, rfl⟩
  | vnum x =>
      rw [hv] at hok
      simp only [setFieldValue, GetFloatFromInterface, Except.ok.injEq] at hok
      rw [← hok]
      exact ⟨rfl, rfl⟩
  | vother =>
      rw [hv] at hok
      simp only [setFieldValue, GetFloatFromInterface] at hok
      cases hok

theorem mergedFieldFlatDoc_docGet (mergeS : String) (p : TSPoint) (fv : String × GoVal)
    (d : Doc) (hok : mergedFieldFlatDoc mergeS p fv = .ok d) :
    docGet d "series" = some (.str p.name)
      ∧ docGet d "type" = some (.str ("i" ++ mergeS)) := by
  unfold mergedFieldFlatDoc at hok
  cases hv : fv.2 with
  | vstr s =>
      rw [hv] at hok
      simp only [setFieldValue, Except.ok.injEq] at hok
      rw [← hok]
      exact ⟨rfl, rfl⟩
  | vnum x =>
      rw [hv] at hok
      simp only [setFieldValue, GetFloatFromInterface, Except.ok.injEq] at hok
      rw [← hok]
      exact ⟨rfl, rfl⟩
  | vother =>
      rw [hv] at hok
      simp only [setFieldValue, GetFloatFromInterface] at hok
      cases hok

theorem flatFold_mem (mk : String × GoVal → Except String Doc) (ks : List String)
    (fs : List (String × GoVal)) :
    ∀ (l : List (Doc × List String)), flatFold mk ks fs = .ok l →
      ∀ dk ∈ l, dk.2 = ks ∧ ∃ fv, mk fv = .ok dk.1 := by
  induction fs with
  | nil =>
      intro l hok dk hdk
      simp only [flatFold, Except.ok.injEq] at hok
      rw [← hok] at hdk
      cases hdk
  | cons fv rest ih =>
      intro l hok dk hdk
      simp only [flatFold] at hok
      cases hmk : mk fv with
      | error m => rw [hmk] at hok; cases hok
      | ok d =>
          rw [hmk] at hok
          cases hrest : flatFold mk ks rest with
          | error m => rw [hrest] at hok; cases hok
          | ok ds =>
              rw [hrest] at hok
              simp only [Except.ok.injEq] at hok
              rw [← hok] at hdk
              rcases List.mem_cons.mp hdk with h1 | h2
              · rw [h1]
                exact ⟨rfl, fv, hmk⟩
              · exact ih ds hrest dk h2

theorem fieldWAPart_some_off (o : Outputs) (p : TSPoint) (fs : List (String × GoVal))
    (hf : p.fields = some fs) :
    fieldWAPart false o p
      = if o.o0 || o.o1 then
          Except.map (fun d => [(d, ["type", "time", "period"])])
            (fieldsWideArrayDoc o.o0 o.o1 p fs)
        else .ok [] := by
  unfold fieldWAPart
  rw [hf]

theorem fieldFlatPart_some_off (o : Outputs) (p : TSPoint) (fs : List (String × GoVal))
    (hf : p.fields = some fs) :
    fieldFlatPart false o p
      = if o.o2 then flatFold (fieldFlatDoc p) ["type", "time", "period", "name"] fs
        else .ok [] := by
  unfold fieldFlatPart
  rw [hf]

theorem mergedWAPart_some_on (mergeS : String) (o : Outputs) (p : TSPoint)
    (fs : List (String × GoVal)) (hf : p.fields = some fs) :
    mergedWAPart mergeS true o p
      = if o.o0 || o.o1 then
          Except.map (fun d => [(d, ["type", "time", "period", "series"])])
            (mergedWideArrayDoc mergeS o.o0 o.o1 p fs)
        else .ok [] := by
  unfold mergedWAPart
  rw [hf]

theorem mergedFlatPart_some_on (mergeS : String) (o : Outputs) (p : TSPoint)
    (fs : List (String × GoVal)) (hf : p.fields = some fs) :
    mergedFlatPart mergeS true o p
      = if o.o2 then
          flatFold (mergedFieldFlatDoc mergeS p) ["type", "time", "period", "series", "name"] fs
        else .ok [] := by
  unfold mergedFlatPart
  rw [hf]

theorem fieldWAPart_none (merge : Bool) (o : Outputs) (p : TSPoint)
    (hf : p.fields = none) : fieldWAPart merge o p = .ok [] := by
  unfold fieldWAPart
  rw [hf]

theorem fieldFlatPart_none (merge : Bool) (o : Outputs) (p : TSPoint)
    (hf : p.fields = none) : fieldFlatPart merge o p = .ok [] := by
  unfold fieldFlatPart
  rw [hf]

theorem mergedWAPart_none (mergeS : String) (merge : Bool) (o : Outputs) (p : TSPoint)
    (hf : p.fields = none) : mergedWAPart mergeS merge o p = .ok [] := by
  unfold mergedWAPart
  rw [hf]

theorem mergedFlatPart_none (mergeS : String) (merge : Bool) (o : Outputs) (p : TSPoint)
    (hf : p.fields = none) : mergedFlatPart mergeS merge o p = .ok [] := by
  unfold mergedFlatPart
  rw [hf]

theorem fieldWAPart_off_mem (o : Outputs) (p : TSPoint) (a : List (Doc × List String))
    (h : fieldWAPart false o p = .ok a) (dk : Doc × List String) (hdk : dk ∈ a) :
    dk.2 = ["type", "time", "period"]
      ∧ ∃ fs, p.fields = some fs ∧ fieldsWideArrayDoc o.o0 o.o1 p fs = .ok dk.1 := by
  cases hf : p.fields with
  | none =>
      rw [fieldWAPart_none false o p hf] at h
      simp only [Except.ok.injEq] at h
      rw [← h] at hdk
      cases hdk
  | some fs =>
      rw [fieldWAPart_some_off o p fs hf] at h
      split at h
      · cases hwa : fieldsWideArrayDoc o.o0 o.o1 p fs with
        | error m => rw [hwa] at h; simp [Except.map] at h
        | ok d =>
            rw [hwa] at h
            simp only [Except.map, Except.ok.injEq] at h
            rw [← h] at hdk
            rw [List.mem_singleton.mp hdk]
            exact ⟨rfl, fs, rfl, hwa⟩
      · simp only [Except.ok.injEq] at h
        rw [← h] at hdk
        cases hdk

theorem fieldFlatPart_off_mem (o : Outputs) (p : TSPoint) (a : List (Doc × List String))
    (h : fieldFlatPart false o p = .ok a) (dk : Doc × List String) (hdk : dk ∈ a) :
    dk.2 = ["type", "time", "period", "name"]
      ∧ ∃ fv, fieldFlatDoc p fv = .ok dk.1 := by
  cases hf : p.fields with
  | none =>
      rw [fieldFlatPart_none false o p hf] at h
      simp only [Except.ok.injEq] at h
      rw [← h] at hdk
      cases hdk
  | some fs =>
      rw [fieldFlatPart_some_off o p fs hf] at h
      split at h
      · exact flatFold_mem (fieldFlatDoc p) _ fs a h dk hdk
      · simp only [Except.ok.injEq] at h
        rw [← h] at hdk
        cases hdk

theorem mergedWAPart_on_mem (mergeS : String) (o : Outputs) (p : TSPoint)
    (a : List (Doc × List String)) (h : mergedWAPart mergeS true o p = .ok a)
    (dk : Doc × List String) (hdk : dk ∈ a) :
    dk.2 = ["type", "time", "period", "series"]
      ∧ ∃ fs, p.fields = some fs ∧ mergedWideArrayDoc mergeS o.o0 o.o1 p fs = .ok dk.1 := by
  cases hf : p.fields with
  | none =>
      rw [mergedWAPart_none mergeS true o p hf] at h
      simp only [Except.ok.injEq] at h
      rw [← h] at hdk
      cases hdk
  | some fs =>
      rw [mergedWAPart_some_on mergeS o p fs hf] at h
      split at h
      · cases hwa : mergedWideArrayDoc mergeS o.o0 o.o1 p fs with
        | error m => rw [hwa] at h; simp [Except.map] at h
        | ok d =>
            rw [hwa] at h
            simp only [Except.map, Except.ok.injEq] at h
            rw [← h] at hdk
            rw [List.mem_singleton.mp hdk]
            exact ⟨rfl, fs, rfl, hwa⟩
      · simp only [Except.ok.injEq] at h
        rw [← h] at hdk
        cases hdk

theorem mergedFlatPart_on_mem (mergeS : String) (o : Outputs) (p : TSPoint)
    (a : List (Doc × List String)) (h : mergedFlatPart mergeS true o p = .ok a)
    (dk : Doc × List String) (hdk : dk ∈ a) :
    dk.2 = ["type", "time", "period", "series", "name"]
      ∧ ∃ fv, mergedFieldFlatDoc mergeS p fv = .ok dk.1 := by
  cases hf : p.fields with
  | none =>
      rw [mergedFlatPart_none mergeS true o p hf] at h
      simp only [Except.ok.injEq] at h
      rw [← h] at hdk
      cases hdk
  | some fs =>
      rw [mergedFlatPart_some_on mergeS o p fs hf] at h
      split at h
      · exact flatFold_mem (mergedFieldFlatDoc mergeS p) _ fs a h dk hdk
      · simp only [Except.ok.injEq] at h
        rw [← h] at hdk
        cases hdk

/-- C6: for every point, all field-bearing documents (those whose
key-field list contains `period`) come from exactly one branch determined
by the merge label: with an empty label they carry the unmerged key lists
and types `"s"+name` / `"is"+name` and no `series` attribute; with a
non-empty label they carry `series` among the key fields, a `series`
attribute equal to the point's series name, and types derived from the
merge label — never both for the same point. -/
theorem merge_branch_exclusivity (label : String) (o : Outputs) (p : TSPoint)
    (docs : List (Doc × List String))
    (h : buildPoint (if label != "" then "s" ++ label else label) (label != "") o p
      = .ok docs)
    (hclean : ∀ fs, p.fields = some fs →
      ∀ fv ∈ fs, ESEscapeFieldName fv.1 ≠ "type" ∧ ESEscapeFieldName fv.1 ≠ "series") :
    (docs.all fun dk => decide (("period" ∈ dk.2) →
      if label = "" then
        (dk.2 = ["type", "time", "period"] ∨ dk.2 = ["type", "time", "period", "name"])
          ∧ docGet dk.1 "series" = none
          ∧ (docGet dk.1 "type" = some (.str ("s" ++ p.name))
              ∨ docGet dk.1 "type" = some (.str ("is" ++ p.name)))
      else
        ("series" ∈ dk.2)
          ∧ docGet dk.1 "series" = some (.str p.name)
          ∧ (docGet dk.1 "type" = some (.str ("s" ++ label))
              ∨ docGet dk.1 "type" = some (.str ("i" ++ ("s" ++ label)))))) = true := by
  rw [List.all_eq_true]
  intro dk hdk
  rw [decide_eq_true_eq]
  intro hper
  unfold buildPoint at h
  obtain ⟨b1, hy1, hdocs⟩ := catE_ok_left _ _ _ h
  obtain ⟨a2, b2, h2, hy2, hb1⟩ := catE_ok _ _ _ hy1
  obtain ⟨a3, b3, h3, hy3, hb2⟩ := catE_ok _ _ _ hy2
  obtain ⟨a4, a5, h4, h5, hb3⟩ := catE_ok _ _ _ hy3
  subst hdocs hb1 hb2 hb3
  by_cases hlab : label = ""
  · subst hlab
    rw [if_pos rfl]
    have hbf : (("" : String) != "") = false := rfl
    rw [hbf] at h2 h3 h4 h5
    rw [mergedWAPart_off] at h4
    rw [mergedFlatPart_off] at h5
    have ha4 : a4 = [] := by injection h4 with hh; exact hh.symm
    have ha5 : a5 = [] := by injection h5 with hh; exact hh.symm
    subst ha4 ha5
    rcases List.mem_append.mp hdk with hm1 | hm'
    · rcases tagPart_keys o p dk hm1 with hk | hk <;> rw [hk] at hper <;>
        exact absurd hper (by decide)
    · rcases List.mem_append.mp hm' with hm2 | hm''
      · obtain ⟨hkeys, fs, hf, hwa⟩ := fieldWAPart_off_mem o p a2 h2 dk hm2
        refine ⟨Or.inl hkeys, ?_, Or.inl ?_⟩
        · rw [fieldsWideArrayDoc_docGet o.o0 o.o1 p fs dk.1 hwa "series" (by decide)
            (fun fv hv => (hclean fs hf fv hv).2)]
          rfl
        · rw [fieldsWideArrayDoc_docGet o.o0 o.o1 p fs dk.1 hwa "type" (by decide)
            (fun fv hv => (hclean fs hf fv hv).1)]
          rfl
      · rcases List.mem_append.mp hm'' with hm3 | hm4
        · obtain ⟨hkeys, fv, hfd⟩ := fieldFlatPart_off_mem o p a3 h3 dk hm3
          exact ⟨Or.inr hkeys, (fieldFlatDoc_docGet p fv dk.1 hfd).1,
            Or.inr (fieldFlatDoc_docGet p fv dk.1 hfd).2⟩
        · simp at hm4
  · rw [if_neg hlab]
    have hbt : (label != "") = true := by simp [bne, hlab]
    rw [hbt] at h2 h3 h4 h5
    simp only [eq_self_iff_true, if_true] at h4 h5
    rw [fieldWAPart_on] at h2
    rw [fieldFlatPart_on] at h3
    have ha2 : a2 = [] := by injection h2 with hh; exact hh.symm
    have ha3 : a3 = [] := by injection h3 with hh; exact hh.symm
    subst ha2 ha3
    rcases List.mem_append.mp hdk with hm1 | hm'
    · rcases tagPart_keys o p dk hm1 with hk | hk <;> rw [hk] at hper <;>
        exact absurd hper (by decide)
    · simp only [List.nil_append] at hm'
      rcases List.mem_append.mp hm' with hm4 | hm5
      · obtain ⟨hkeys, fs, hf, hwa⟩ := mergedWAPart_on_mem _ o p a4 h4 dk hm4
        refine ⟨by rw [hkeys]; decide, ?_, Or.inl ?_⟩
        · rw [mergedWideArrayDoc_docGet _ o.o0 o.o1 p fs dk.1 hwa "series" (by decide)
            (fun fv hv => (hclean fs hf fv hv).2)]
          rfl
        · rw [mergedWideArrayDoc_docGet _ o.o0 o.o1 p fs dk.1 hwa "type" (by decide)
            (fun fv hv => (hclean fs hf fv hv).1)]
          rfl
      · obtain ⟨hkeys, fv, hfd⟩ := mergedFlatPart_on_mem _ o p a5 h5 dk hm5
        refine ⟨by rw [hkeys]; decide, ?_, Or.inr ?_⟩
        · exact (mergedFieldFlatDoc_docGet _ p fv dk.1 hfd).1
        · exact (mergedFieldFlatDoc_docGet _ p fv dk.1 hfd).2

theorem merge_branch_exclusivity_witness :
    (([([("data", EVal.data [⟨"tg", 0, "v"⟩]),
         ("tg", EVal.str "v"),
         ("tag_time", EVal.date 1),
         ("time", EVal.date 2),
         ("type", EVal.str "ts1")],
        ["type", "tag_time"]),
       ([("svalue", EVal.str "v"),
         ("name", EVal.str "tg"),
         ("tag_time", EVal.date 1),
         ("time", EVal.date 2),
         ("type", EVal.str "its1")],
        ["type", "tag_time", "name"]),
       ([("data", EVal.data [⟨"f", 2, ""⟩]),
         ("f", EVal.raw (GoVal.vnum 2)),
         ("time_added", EVal.date 2),
         ("series", EVal.str "s1"),
         ("period", EVal.str "w"),
         ("time", EVal.date 1),
         ("type", EVal.str "sm")],
        ["type", "time", "period", "series"]),
       ([("ivalue", EVal.num 2),
         ("name", EVal.str "f"),
         ("time_added", EVal.date 2),
         ("series", EVal.str "s1"),
         ("period", EVal.str "w"),
         ("time", EVal.date 1),
         ("type", EVal.str "ism")],
        ["type", "time", "period", "series", "name"])] :
      List (Doc × List String)).all fun dk => decide (("period" ∈ dk.2) →
      if ("m" : String) = "" then
        (dk.2 = ["type", "time", "period"] ∨ dk.2 = ["type", "time", "period", "name"])
          ∧ docGet dk.1 "series" = none
          ∧ (docGet dk.1 "type" = some (.str ("s" ++ "s1"))
              ∨ docGet dk.1 "type" = some (.str ("is" ++ "s1")))
      else
        ("series" ∈ dk.2)
          ∧ docGet dk.1 "series" = some (.str "s1")
          ∧ (docGet dk.1 "type" = some (.str ("s" ++ "m"))
              ∨ docGet dk.1 "type" = some (.str ("i" ++ ("s" ++ "m")))))) = true :=
  merge_branch_exclusivity "m" ⟨true, true, true⟩
    ⟨"s1", some [("tg", "v")], some [("f", GoVal.vnum 2)], 1, 2, "w"⟩
    [([("data", EVal.data [⟨"tg", 0, "v"⟩]),
       ("tg", EVal.str "v"),
       ("tag_time", EVal.date 1),
       ("time", EVal.date 2),
       ("type", EVal.str "ts1")],
      ["type", "tag_time"]),
     ([("svalue", EVal.str "v"),
       ("name", EVal.str "tg"),
       ("tag_time", EVal.date 1),
       ("time", EVal.date 2),
       ("type", EVal.str "its1")],
      ["type", "tag_time", "name"]),
     ([("data", EVal.data [⟨"f", 2, ""⟩]),
       ("f", EVal.raw (GoVal.vnum 2)),
       ("time_added", EVal.date 2),
       ("series", EVal.str "s1"),
       ("period", EVal.str "w"),
       ("time", EVal.date 1),
       ("type", EVal.str "sm")],
      ["type", "time", "period", "series"]),
     ([("ivalue", EVal.num 2),
       ("name", EVal.str "f"),
       ("time_added", EVal.date 2),
       ("series", EVal.str "s1"),
       ("period", EVal.str "w"),
       ("time", EVal.date 1),
       ("type", EVal.str "ism")],
      ["type", "time", "period", "series", "name"])]
    rfl (by decide)

/-! ## Claim C2: where the coercion-failure fatality actually applies -/

/-- C2 (counterexample): in wide-only output mode a field value that is
neither a string nor numerically coercible does NOT make the operation
fail — the raw value is stored verbatim as a document attribute and the
batches are submitted, contrary to the claim that every such value is
fatal in every output mode. -/
theorem wide_mode_raw_value_counterexample :
    (WriteESPoints "p" [⟨"x", none, some [("f", GoVal.vother)], 1, 2, "w"⟩] ""
        ⟨true, false, false⟩ true).fatal = none
      ∧ (WriteESPoints "p" [⟨"x", none, some [("f", GoVal.vother)], 1, 2, "w"⟩] ""
          ⟨true, false, false⟩ true).submitted = true
      ∧ (WriteESPoints "p" [⟨"x", none, some [("f", GoVal.vother)], 1, 2, "w"⟩] ""
          ⟨true, false, false⟩ true).bulkAdd.map (fun a => docGet a.doc "f")
        = [some (EVal.raw GoVal.vother)] := ⟨rfl, rfl, rfl⟩

theorem fieldsLoop_vother_error (o0 : Bool) (fs : List (String × GoVal)) (n : String)
    (hmem : (n, GoVal.vother) ∈ fs) :
    ∀ acc, isErr (fieldsLoop o0 true fs acc) = true := by
  induction fs with
  | nil => cases hmem
  | cons fv rest ih =>
      intro acc
      cases hv : fv.2 with
      | vstr s =>
          have hr : (n, GoVal.vother) ∈ rest := by
            rcases List.mem_cons.mp hmem with h1 | h2
            · rw [← h1] at hv; exact absurd hv (by simp)
            · exact h2
          simp only [fieldsLoop, hv, eq_self_iff_true, if_true]
          exact ih hr _
      | vnum x =>
          have hr : (n, GoVal.vother) ∈ rest := by
            rcases List.mem_cons.mp hmem with h1 | h2
            · rw [← h1] at hv; exact absurd hv (by simp)
            · exact h2
          simp only [fieldsLoop, hv, GetFloatFromInterface, eq_self_iff_true, if_true]
          exact ih hr _
      | vother =>
          simp only [fieldsLoop, hv, GetFloatFromInterface, eq_self_iff_true, if_true]
          rfl

theorem flatFold_vother_error (mk : String × GoVal → Except String Doc) (ks : List String)
    (fs : List (String × GoVal)) (n : String) (hmem : (n, GoVal.vother) ∈ fs)
    (hmk : ∀ fv : String × GoVal, fv.2 = GoVal.vother → isErr (mk fv) = true) :
    isErr (flatFold mk ks fs) = true := by
  induction fs with
  | nil => cases hmem
  | cons fv rest ih =>
      simp only [flatFold]
      cases hcall : mk fv with
      | error m => rfl
      | ok d =>
          rcases List.mem_cons.mp hmem with h1 | h2
          · have hbad := hmk fv (by rw [← h1])
            rw [hcall] at hbad
            simp [isErr] at hbad
          · have hrest := ih h2
            cases hfold : flatFold mk ks rest with
            | error m => rfl
            | ok ds =>
                rw [hfold] at hrest
                simp [isErr] at hrest

theorem isErr_catE (x y : Except String (List (Doc × List String))) :
    isErr (catE x y) = (isErr x || isErr y) := by
  cases x with
  | error m => rfl
  | ok a =>
      cases y with
      | error m => rfl
      | ok b => rfl

theorem isErr_exceptMap {α β : Type} (f : α → β) (x : Except String α) :
    isErr (Except.map f x) = isErr x := by
  cases x <;> rfl

theorem isErr_fieldsWideArrayDoc (o0 o1 : Bool) (p : TSPoint)
    (fs : List (String × GoVal)) :
    isErr (fieldsWideArrayDoc o0 o1 p fs)
      = isErr (fieldsLoop o0 o1 fs (fieldsWABase p, [])) := by
  unfold fieldsWideArrayDoc
  cases fieldsLoop o0 o1 fs (fieldsWABase p, []) <;> rfl

theorem isErr_mergedWideArrayDoc (mergeS : String) (o0 o1 : Bool) (p : TSPoint)
    (fs : List (String × GoVal)) :
    isErr (mergedWideArrayDoc mergeS o0 o1 p fs)
      = isErr (fieldsLoop o0 o1 fs (mergedWABase mergeS p, [])) := by
  unfold mergedWideArrayDoc
  cases fieldsLoop o0 o1 fs (mergedWABase mergeS p, []) <;> rfl

theorem buildPoint_vother_error (mergeS : String) (merge : Bool) (o : Outputs)
    (p : TSPoint) (fs : List (String × GoVal)) (n : String)
    (hf : p.fields = some fs) (hmem : (n, GoVal.vother) ∈ fs)
    (ho : o.o1 = true ∨ o.o2 = true) :
    isErr (buildPoint mergeS merge o p) = true := by
  unfold buildPoint
  simp only [isErr_catE]
  cases merge with
  | false =>
      rw [mergedWAPart_off, mergedFlatPart_off]
      rcases ho with h1 | h2
      · have hwa : isErr (fieldWAPart false o p) = true := by
          rw [fieldWAPart_some_off o p fs hf,
            if_pos (by rw [h1, Bool.or_true] : (o.o0 || o.o1) = true)]
          rw [isErr_exceptMap, isErr_fieldsWideArrayDoc, h1]
          exact fieldsLoop_vother_error o.o0 fs n hmem _
        rw [hwa]
        simp [isErr]
      · have hfl : isErr (fieldFlatPart false o p) = true := by
          rw [fieldFlatPart_some_off o p fs hf, if_pos h2]
          exact flatFold_vother_error _ _ fs n hmem (fun fv hv => by
            unfold fieldFlatDoc
            rw [hv]
            rfl)
        rw [hfl]
        simp [isErr]
  | true =>
      rw [fieldWAPart_on, fieldFlatPart_on]
      rcases ho with h1 | h2
      · have hwa : isErr (mergedWAPart mergeS true o p) = true := by
          rw [mergedWAPart_some_on mergeS o p fs hf,
            if_pos (by rw [h1, Bool.or_true] : (o.o0 || o.o1) = true)]
          rw [isErr_exceptMap, isErr_mergedWideArrayDoc, h1]
          exact fieldsLoop_vother_error o.o0 fs n hmem _
        rw [hwa]
        simp [isErr]
      · have hfl : isErr (mergedFlatPart mergeS true o p) = true := by
          rw [mergedFlatPart_some_on mergeS o p fs hf, if_pos h2]
          exact flatFold_vother_error _ _ fs n hmem (fun fv hv => by
            unfold mergedFieldFlatDoc
            rw [hv]
            rfl)
        rw [hfl]
        simp [isErr]

theorem isErr_exists {α : Type} (x : Except String α) (h : isErr x = true) :
    ∃ m, x = .error m := by
  cases x with
  | error m => exact ⟨m, rfl⟩
  | ok a => cases h

/-- C2 (amended): the fatal coercion rule applies to the array and flat
representations: whenever array or flat output is requested and some
field value is neither a string nor numerically coercible, the whole
operation fails fatally before anything is submitted.  (Wide-only output
instead stores the raw value without coercion — see the counterexample.) -/
theorem coercion_fatal_in_array_and_flat (proj mergeS : String) (o : Outputs)
    (p : TSPoint) (fs : List (String × GoVal)) (n : String) (ex : Bool)
    (hf : p.fields = some fs) (hmem : (n, GoVal.vother) ∈ fs)
    (ho : o.o1 = true ∨ o.o2 = true) :
    (WriteESPoints proj [p] mergeS o ex).fatal.isSome = true
      ∧ (WriteESPoints proj [p] mergeS o ex).submitted = false := by
  have hbp := buildPoint_vother_error (if mergeS != "" then "s" ++ mergeS else mergeS)
    (mergeS != "") o p fs n hf hmem ho
  obtain ⟨m, hm⟩ := isErr_exists _ hbp
  have hall : buildAllPoints (if mergeS != "" then "s" ++ mergeS else mergeS)
      (mergeS != "") o [p] = .error m := by
    simp only [buildAllPoints, hm]
  have hiff : (if mergeS != "" then "s" ++ mergeS else mergeS)
      = (if mergeS = "" then mergeS else "s" ++ mergeS) := by
    by_cases hq : mergeS = "" <;> simp [hq, bne]
  rw [hiff] at hall
  simp [WriteESPoints, hall]

theorem coercion_fatal_witness :
    (WriteESPoints "p" [⟨"x", none, some [("f", GoVal.vother)], 1, 2, "w"⟩] ""
        ⟨false, true, false⟩ true).fatal.isSome = true
      ∧ (WriteESPoints "p" [⟨"x", none, some [("f", GoVal.vother)], 1, 2, "w"⟩] ""
          ⟨false, true, false⟩ true).submitted = false :=
  coercion_fatal_in_array_and_flat "p" "" ⟨false, true, false⟩
    ⟨"x", none, some [("f", GoVal.vother)], 1, 2, "w"⟩
    [("f", GoVal.vother)] "f" true rfl (by decide) (Or.inl rfl)
